import Mathlib

/-!
Verification of the Databricks MCP server core (`server.py` of the
repository).

The development shallowly embeds the pure logic of the source:
* `_strip_sql_comments_and_literals` / `is_read_only_query` — the SQL
  read-only classifier.  The five `re.sub` passes are modelled as
  left-to-right scanners over `List Char` (exactly the leftmost-match
  discipline of the regex engine, including its backtracking on the
  quote literals), restricted to ASCII text, which is what the Python
  regexes do on ASCII input.
* `DatabricksSQLClient.execute_read_query` — submission, status polling
  and chunk following (the HTTP server is an oracle: the submit
  response, the successive poll responses and the chain of result
  chunks are inputs; wall-clock time advances by the fixed sleep
  interval per poll iteration).
* the metadata cache (`_cache_get` / `_cache_set` /
  `_run_metadata_query`) with explicit time arguments standing for the
  `time.time()` calls.
* the tool layer (`execute_read_query`, the `list_*` tools,
  `describe_table` and the alias tools), with Python exceptions
  modelled by `Except`.
-/

namespace DbxMcp

/-! ## Query classifier (`server.py` lines 23-90)

A single generic scanner models one `re.sub` pass: at each position the
pass either matches (producing replacement output and the remainder
after the match) or the engine advances one character.  The scanner is
structurally recursive on a fuel argument (so that the kernel can
evaluate it); fuel `l.length` is always sufficient because every match
consumes at least one character. -/

/-- One `re.sub` pass: `step c rest` returns `some (out, rem)` when the
regex matches at a position whose first character is `c` and whose
remaining text is `rest` (`out` is the replacement, `rem` the text after
the match), and `none` when the engine advances one character. -/
def scanF (step : Char → List Char → Option (List Char × List Char)) :
    Nat → List Char → List Char
  | 0, l => l
  | _ + 1, [] => []
  | fuel + 1, c :: rest =>
    match step c rest with
    | some (out, rem) => out ++ scanF step fuel rem
    | none => c :: scanF step fuel rest

def scan (step : Char → List Char → Option (List Char × List Char))
    (l : List Char) : List Char :=
  scanF step l.length l

/-- A step never skips past the end of the text: what remains after a
match is no longer than what followed the matched position. -/
def StepBound (step : Char → List Char → Option (List Char × List Char)) : Prop :=
  ∀ c rest out rem, step c rest = some (out, rem) → rem.length ≤ rest.length

/-! ### The five `re.sub` passes -/

def squoteChar : Char := Char.ofNat 39

def backquoteChar : Char := Char.ofNat 96

/-- Python `\s` on the ASCII range: space, tab, newline, CR, VT, FF. -/
def isPySpace (c : Char) : Bool :=
  c = ' ' || c = '\t' || c = '\n' || c = '\r' || c = Char.ofNat 11 || c = Char.ofNat 12

/-- Remainder of the input after the first `*/`, if any: the non-greedy
close search of the block-comment regex `/\*.*?\*/` (DOTALL). -/
def findClose : List Char → Option (List Char)
  | [] => none
  | c :: rest =>
    if c = '*' ∧ rest.head? = some '/' then some rest.tail
    else findClose rest

/-- `re.sub(r"/\*.*?\*/", " ", query, flags=re.DOTALL)`: a `/*` with a
later `*/` is a match replaced by one space; a `/*` with no close does
not match (the engine just moves on). -/
def blockStep (c : Char) (rest : List Char) : Option (List Char × List Char) :=
  if c = '/' ∧ rest.head? = some '*' then
    match findClose rest.tail with
    | some rem => some ([' '], rem)
    | none => none
  else none

def stripBlock (l : List Char) : List Char := scan blockStep l

/-- `re.sub(r"--[^\n]*", " ", query)`: from `--` to just before the next
newline (or end of input), replaced by one space. -/
def lineStep (c : Char) (rest : List Char) : Option (List Char × List Char) :=
  if c = '-' ∧ rest.head? = some '-' then
    some ([' '], rest.tail.dropWhile (fun x => x ≠ '\n'))
  else none

def stripLine (l : List Char) : List Char := scan lineStep l

/-- Content scan of the quote regexes `'(?:''|[^'])*'` and
`` `(?:``|[^`])*` `` (parametrised by the quote character `qc`): given
the text after an opening quote, return the remainder after the closing
quote of the (greedy, backtracking) match, or `none` when the regex does
not match, i.e. when no further `qc` occurs.  A doubled `qc` is consumed
as an escape when a close still exists further right; otherwise
backtracking closes the literal at the first quote of the pair. -/
def qScanF (qc : Char) : Nat → List Char → Option (List Char)
  | 0, _ => none
  | _ + 1, [] => none
  | fuel + 1, c :: rest =>
    if c = qc then
      if rest.head? = some qc then
        match qScanF qc fuel rest.tail with
        | some r => some r
        | none => some rest
      else some rest
    else qScanF qc fuel rest

def qScan (qc : Char) (l : List Char) : Option (List Char) :=
  qScanF qc l.length l

/-- `re.sub(r"'(?:''|[^'])*'", "''", query)` and its backtick twin: a
matched literal is replaced by an empty pair of quotes. -/
def quoteStep (qc : Char) (c : Char) (rest : List Char) : Option (List Char × List Char) :=
  if c = qc then
    match qScan qc rest with
    | some rem => some ([qc, qc], rem)
    | none => none
  else none

def stripQuote (qc : Char) (l : List Char) : List Char := scan (quoteStep qc) l

/-- Content scan of the double-quote regex `"(?:\\"|[^"])*"`: an escaped
`\"` is consumed as a unit when a close still exists further right;
otherwise backtracking lets the backslash match `[^"]` and the quote
closes the literal.  A bare `"` closes immediately; `none` when no `"`
occurs at all. -/
def dqScanF : Nat → List Char → Option (List Char)
  | 0, _ => none
  | _ + 1, [] => none
  | fuel + 1, c :: rest =>
    if c = '\\' ∧ rest.head? = some '"' then
      match dqScanF fuel rest.tail with
      | some r => some r
      | none => some rest.tail
    else if c = '"' then some rest
    else dqScanF fuel rest

def dqScan (l : List Char) : Option (List Char) :=
  dqScanF l.length l

/-- `re.sub(r'"(?:\\"|[^"])*"', '""', query)`. -/
def dqStep (c : Char) (rest : List Char) : Option (List Char × List Char) :=
  if c = '"' then
    match dqScan rest with
    | some rem => some (['"', '"'], rem)
    | none => none
  else none

def stripDQuote (l : List Char) : List Char := scan dqStep l

/-- `re.sub(r"\s+", " ", query)`: every whitespace run becomes one space. -/
def wsStep (c : Char) (rest : List Char) : Option (List Char × List Char) :=
  if isPySpace c then some ([' '], rest.dropWhile isPySpace)
  else none

def collapseWS (l : List Char) : List Char := scan wsStep l

/-- Python `str.strip()` on ASCII whitespace. -/
def pyStrip (l : List Char) : List Char :=
  ((l.dropWhile isPySpace).reverse.dropWhile isPySpace).reverse

/-- `_strip_sql_comments_and_literals` (`server.py` lines 64-70): block
comments, then line comments, then single-, double- and backtick-quoted
literals, then whitespace collapsing and stripping. -/
def _strip_sql_comments_and_literals (l : List Char) : List Char :=
  pyStrip (collapseWS (stripQuote backquoteChar (stripDQuote (stripQuote squoteChar
    (stripLine (stripBlock l))))))

def READ_ONLY_START_KEYWORDS : List String :=
  ["SELECT", "WITH", "SHOW", "DESCRIBE", "DESC", "EXPLAIN"]

def DISALLOWED_OPERATIONS : List String :=
  ["UPDATE", "DELETE", "DROP", "ALTER", "TRUNCATE", "MERGE", "GRANT",
   "REVOKE", "REPLACE", "SET", "UNSET", "OPTIMIZE", "VACUUM", "COPY",
   "CLONE", "EXECUTE", "CALL", "PUT", "REMOVE", "UNDROP", "RESTORE",
   "INSERT", "CREATE"]

/-- A regex word character (`\w`): ASCII letters, digits, underscore. -/
def isWordChar (c : Char) : Bool :=
  ('A' ≤ c && c ≤ 'Z') || ('a' ≤ c && c ≤ 'z') || ('0' ≤ c && c ≤ '9') || c = '_'

/-- Does `op` occur at the head of `s`, ended by a word boundary? -/
def wordAt (op s : List Char) : Bool :=
  decide (op <+: s) &&
    (match s.drop op.length with
     | [] => true
     | c :: _ => !isWordChar c)

/-- Scan for `\b op \b` given whether the previous character (if any)
was a word character. -/
def occursWordFrom (op : List Char) : Bool → List Char → Bool
  | _, [] => false
  | prevIsWord, c :: rest =>
    (!prevIsWord && wordAt op (c :: rest)) || occursWordFrom op (isWordChar c) rest

/-- `re.search(rf"\b{re.escape(op)}\b", s)` for an alphabetic `op`. -/
def occursWord (op s : List Char) : Bool :=
  occursWordFrom op false s

/-- The decision `is_read_only_query` takes on the normalized
(stripped, upper-cased) text: non-empty, leading `[A-Z]+` token in the
allow-list, and no disallowed operation as a whole word. -/
def classifyNormalized (normalized : List Char) : Bool :=
  if normalized.isEmpty then false
  else if (normalized.takeWhile (fun c => 'A' ≤ c && c ≤ 'Z')).isEmpty then false
  else if String.mk (normalized.takeWhile (fun c => 'A' ≤ c && c ≤ 'Z')) ∈ READ_ONLY_START_KEYWORDS then
    DISALLOWED_OPERATIONS.all (fun op => !occursWord op.data normalized)
  else false

/-- `is_read_only_query` (`server.py` lines 73-90). -/
def is_read_only_query (q : String) : Bool :=
  classifyNormalized ((_strip_sql_comments_and_literals q.data).map Char.toUpper)

/-! ## C1: the classifier allows exactly the normalized read-only texts -/

/-- The classification criterion as the specification states it: after
normalization the text is non-empty, its leading contiguous alphabetic
token is one of the read-only start keywords, and no disallowed
operation keyword occurs anywhere in the normalized text as a whole
word. -/
def readOnlyPerSpec (q : String) : Prop :=
  (_strip_sql_comments_and_literals q.data).map Char.toUpper ≠ [] ∧
  String.mk (((_strip_sql_comments_and_literals q.data).map Char.toUpper).takeWhile
      (fun c => 'A' ≤ c && c ≤ 'Z')) ∈ READ_ONLY_START_KEYWORDS ∧
  ∀ op ∈ DISALLOWED_OPERATIONS,
    occursWord op.data ((_strip_sql_comments_and_literals q.data).map Char.toUpper) = false

/-! ## C2: classification is decided on the comment-stripped text -/

/-- Does the two-character sequence `a b` occur (adjacently) in the
list?  Used to express "contains no `*/`" / "contains no `/*`". -/
def hasSub2 (a b : Char) : List Char → Bool
  | [] => false
  | c :: rest => if c = a ∧ rest.head? = some b then true else hasSub2 a b rest

/-! ## Statement client (`server.py` lines 122-228)

`DatabricksSQLClient.execute_read_query` is embedded with the HTTP
server as an oracle: the submit response is an input, the `n`-th status
poll returns `fetch n`, and the chain of result chunks reachable from a
response's `next_chunk_internal_link` is carried by the response as the
list `chunkTail` (the link is present iff the list is non-empty; links
are only ever followed sequentially, so the chain order is the link
order).  Cell values are an arbitrary type `α`.  Wall-clock time is
idealised to advance by exactly the sleep interval per poll iteration,
so the `time.time() < deadline` test at iteration `n` reads
`n * interval < deadline`. -/

structure SqlResponse (α : Type) where
  statementId : Option String
  state : Option String
  errMessage : Option String
  manifestCols : List (Option String)
  dataRows : List (List α)
  chunkTail : List (List (List α))

structure ExecResult (α : Type) where
  ok : Bool
  statement_id : String
  row_count : Nat
  columns : List String
  rows : List (List (String × α))
  truncated : Bool
deriving DecidableEq

/-- `response_data.get("status", {}).get("state", "UNKNOWN")`. -/
def stateD {α : Type} (r : SqlResponse α) : String :=
  r.state.getD "UNKNOWN"

/-- `_extract_columns`: column names from the manifest schema, with a
positional placeholder for a column lacking a name. -/
def extract_columns (cols : List (Option String)) : List String :=
  cols.enum.map (fun ic => ic.2.getD ("column_" ++ toString ic.1))

/-- Python `a or b` for a string `a` that may be absent: falsy means
`None` or `""`. -/
def orFalsy (o : Option String) (d : String) : String :=
  match o with
  | some s => if s = "" then d else s
  | none => d

/-- `_error_message` (`server.py` lines 171-179):
`error.get("message") or status.get("state") or "Databricks statement
failed without an error message."`. -/
def _error_message {α : Type} (r : SqlResponse α) : String :=
  orFalsy r.errMessage
    (orFalsy r.state "Databricks statement failed without an error message.")

/-- The status response observed after `n` polls: the submit response
itself for `n = 0`, then the successive poll results. -/
def respAt {α : Type} (submit : SqlResponse α) (fetch : Nat → SqlResponse α) : Nat → SqlResponse α
  | 0 => submit
  | n + 1 => fetch n

/-- The poll loop (`server.py` lines 198-202): while the state is
PENDING or RUNNING and the wall clock is before the deadline, sleep one
interval and re-fetch.  Structural fuel makes the recursion
kernel-evaluable; `deadline + 1` iterations are always enough when the
interval is positive. -/
def pollAux {α : Type} (fetch : Nat → SqlResponse α) (interval deadline : Nat) :
    Nat → Nat → SqlResponse α → SqlResponse α
  | 0, _, cur => cur
  | fuel + 1, n, cur =>
    if (stateD cur = "PENDING" ∨ stateD cur = "RUNNING") ∧ n * interval < deadline then
      pollAux fetch interval deadline fuel (n + 1) (fetch n)
    else cur

def pollFinal {α : Type} (fetch : Nat → SqlResponse α) (interval deadline : Nat)
    (submit : SqlResponse α) : SqlResponse α :=
  pollAux fetch interval deadline (deadline + 1) 0 submit

/-- The chunk loop (`server.py` lines 212-215): `while next_chunk and
len(all_rows) < max_rows`, fetch the next chunk and extend.  Returns the
accumulated rows and whether an unfollowed link remained
(`bool(next_chunk)` after the loop). -/
def followChunks {α : Type} (maxRows : Nat) :
    List (List α) → List (List (List α)) → List (List α) × Bool
  | acc, [] => (acc, false)
  | acc, chunk :: rest =>
    if acc.length < maxRows then followChunks maxRows (acc ++ chunk) rest
    else (acc, true)

/-- The successful result assembled after the poll loop (`server.py`
lines 207-228).  `dict(zip(columns, row))` is modelled as the
association list `columns.zip row` (`dict` would additionally keep only
the last binding of a repeated column name). -/
def successResult {α : Type} (sid : String) (final : SqlResponse α) (maxRows : Nat) :
    ExecResult α :=
  let columns := extract_columns final.manifestCols
  let acc := followChunks maxRows final.dataRows final.chunkTail
  let trimmed := acc.1.take maxRows
  let mapped := trimmed.map (fun row => columns.zip row)
  { ok := true
    statement_id := sid
    row_count := mapped.length
    columns := columns
    rows := mapped
    truncated := acc.2 || decide (maxRows < acc.1.length) }

/-- `DatabricksSQLClient.execute_read_query` (`server.py` lines
181-228), with `raise` modelled as `Except.error`. -/
def clientExecute {α : Type} (interval deadline maxRows : Nat)
    (submit : SqlResponse α) (fetch : Nat → SqlResponse α) :
    Except String (ExecResult α) :=
  if submit.statementId.getD "" = "" then
    .error "Databricks did not return a statement_id."
  else
    let final := pollFinal fetch interval deadline submit
    if stateD final ≠ "SUCCEEDED" then .error (_error_message final)
    else .ok (successResult (submit.statementId.getD "") final maxRows)

/-- The C6 property: the final status is the first observed response at
which the loop condition (state PENDING or RUNNING, and elapsed time
`m * interval` still before the deadline) fails — every earlier poll was
made under that condition; on exit, SUCCEEDED yields the success result
built from that final response, any other state raises the extracted
error message; and the error message is the server message, falling back
to the status state, falling back to a generic text, treating absent and
empty strings alike. -/
def PollLoopSpec {α : Type} (interval deadline : Nat) (submit : SqlResponse α)
    (fetch : Nat → SqlResponse α) : Prop :=
  (∃ N,
    pollFinal fetch interval deadline submit = respAt submit fetch N ∧
    (∀ m < N,
      (stateD (respAt submit fetch m) = "PENDING" ∨
          stateD (respAt submit fetch m) = "RUNNING") ∧
        m * interval < deadline) ∧
    ¬((stateD (respAt submit fetch N) = "PENDING" ∨
          stateD (respAt submit fetch N) = "RUNNING") ∧
        N * interval < deadline)) ∧
  (∀ maxRows : Nat, submit.statementId.getD "" ≠ "" →
    (stateD (pollFinal fetch interval deadline submit) = "SUCCEEDED" →
      clientExecute interval deadline maxRows submit fetch =
        .ok (successResult (submit.statementId.getD "")
          (pollFinal fetch interval deadline submit) maxRows)) ∧
    (stateD (pollFinal fetch interval deadline submit) ≠ "SUCCEEDED" →
      clientExecute interval deadline maxRows submit fetch =
        .error (_error_message (pollFinal fetch interval deadline submit)))) ∧
  (∀ r : SqlResponse α,
    (∀ m, r.errMessage = some m → m ≠ "" → _error_message r = m) ∧
    (∀ s, (r.errMessage = none ∨ r.errMessage = some "") → r.state = some s → s ≠ "" →
      _error_message r = s) ∧
    ((r.errMessage = none ∨ r.errMessage = some "") →
      (r.state = none ∨ r.state = some "") →
      _error_message r = "Databricks statement failed without an error message."))

def pollSubmitEx : SqlResponse Nat :=
  { statementId := some "stmt-1", state := some "PENDING", errMessage := none,
    manifestCols := [some "a"], dataRows := [], chunkTail := [] }

def pollFetchEx : Nat → SqlResponse Nat := fun n =>
  if n < 3 then
    { statementId := some "stmt-1", state := some "RUNNING", errMessage := none,
      manifestCols := [some "a"], dataRows := [], chunkTail := [] }
  else
    { statementId := some "stmt-1", state := some "SUCCEEDED", errMessage := none,
      manifestCols := [some "a"], dataRows := [[1], [2]], chunkTail := [] }

/-! ## Metadata cache (`server.py` lines 104-119) and tool layer

`time.time()` is an explicit argument; the cache dictionary is an
association list whose lookup behaviour matches the Python dict.  The
metadata TTL is a parameter standing for the configured
`METADATA_CACHE_TTL_SECONDS`. -/

def MAX_ROWS_DEFAULT : Nat := 500

def MAX_ROWS_HARD_LIMIT : Int := 5000

def METADATA_CACHE_TTL_SECONDS : Nat := 60

/-- The rows payload cached for a metadata query (the `rows` of an
execution result). -/
abbrev MetaRows (α : Type) := List (List (String × α))

/-- The `_metadata_cache` dict: key to (expiry timestamp, payload). -/
abbrev CacheState (α : Type) := List (String × Nat × MetaRows α)

def eraseKey {α : Type} (key : String) (cache : CacheState α) : CacheState α :=
  cache.filter (fun e => e.1 != key)

/-- `_cache_get` (`server.py` lines 104-114): a present, unexpired entry
is returned; an expired entry is popped (lazy eviction) and reported as
a miss.  Returns the payload (if any) and the possibly-updated cache. -/
def _cache_get {α : Type} (key : String) (now : Nat) (cache : CacheState α) :
    Option (MetaRows α) × CacheState α :=
  match cache.lookup key with
  | none => (none, cache)
  | some (expiresAt, payload) =>
    if expiresAt < now then (none, eraseKey key cache)
    else (some payload, cache)

/-- `_cache_set` (`server.py` lines 117-119): store
`(now + ttl, payload)` under the key, replacing any previous entry. -/
def _cache_set {α : Type} (key : String) (payload : MetaRows α) (now ttl : Nat)
    (cache : CacheState α) : CacheState α :=
  (key, now + ttl, payload) :: eraseKey key cache

/-- A Python exception crossing the statement-client boundary:
`requests.exceptions.RequestException` or anything else. -/
inductive DbExc where
  | request (msg : String)
  | other (msg : String)
deriving DecidableEq

/-- What `_run_metadata_query` returns when it returns: a cache hit
(`cached: True`), a fresh compute (`cached: False`), or the raw
passthrough of a result whose `ok` is false. -/
inductive MetaOut (α : Type) where
  | hit (data : MetaRows α)
  | fresh (data : MetaRows α)
  | raw (r : ExecResult α)

/-- The compute-and-store tail of `_run_metadata_query` (`server.py`
lines 252-257).  The client call is NOT wrapped in a `try`: its
exception propagates. -/
def runCompute {α : Type} (client : String → Nat → Except DbExc (ExecResult α))
    (sql key : String) (ttl setNow : Nat) (cache : CacheState α) :
    Except DbExc (MetaOut α × CacheState α) :=
  match client sql MAX_ROWS_DEFAULT with
  | .error e => .error e
  | .ok result =>
    if result.ok = false then .ok (.raw result, cache)
    else .ok (.fresh result.rows, _cache_set key result.rows setNow ttl cache)

/-- `_run_metadata_query` (`server.py` lines 246-257).  `getNow` and
`setNow` are the two `time.time()` readings (inside `_cache_get` and
`_cache_set`). -/
def _run_metadata_query {α : Type} (client : String → Nat → Except DbExc (ExecResult α))
    (sql key : String) (refresh : Bool) (ttl getNow setNow : Nat)
    (cache : CacheState α) : Except DbExc (MetaOut α × CacheState α) :=
  if refresh then runCompute client sql key ttl setNow cache
  else
    match _cache_get key getNow cache with
    | (some payload, cache1) => .ok (.hit payload, cache1)
    | (none, cache1) => runCompute client sql key ttl setNow cache1

/-- What the `execute_read_query` tool returns: the client result dict,
or an `ok: False` error envelope. -/
inductive QueryToolOut (α : Type) where
  | result (r : ExecResult α)
  | err (msg : String)
deriving DecidableEq

/-- The `ok` boolean of a tool return. -/
def okOf {α : Type} : QueryToolOut α → Bool
  | .result r => r.ok
  | .err _ => false

/-- The `execute_read_query` tool (`server.py` lines 310-331): validate
`max_rows`, classify, then run the client under a `try` that converts
`RequestException` and any other exception into `ok: False`
envelopes. -/
def execute_read_query_tool {α : Type}
    (client : String → Nat → Except DbExc (ExecResult α))
    (query : String) (max_rows : Int) : QueryToolOut α :=
  if max_rows ≤ 0 then .err "max_rows must be greater than 0."
  else if is_read_only_query query = false then
    .err "Only read-only SQL is allowed. Use SELECT, WITH, SHOW, DESCRIBE, DESC, or EXPLAIN."
  else
    match client query (min max_rows MAX_ROWS_HARD_LIMIT).toNat with
    | .ok r => .result r
    | .error (.request m) => .err ("Databricks request failed: " ++ m)
    | .error (.other m) => .err m

/-- `get_databricks_data` (`server.py` lines 334-337): delegates to
`execute_read_query`. -/
def get_databricks_data_tool {α : Type}
    (client : String → Nat → Except DbExc (ExecResult α))
    (query : String) (max_rows : Int) : QueryToolOut α :=
  execute_read_query_tool client query max_rows

/-- `_quote_ident` (`server.py` lines 100-101): wrap in backticks,
doubling embedded backticks. -/
def _quote_ident (s : String) : String :=
  String.mk [backquoteChar] ++
    String.mk ((s.data.map (fun ch =>
      if ch = backquoteChar then [backquoteChar, backquoteChar] else [ch])).flatten) ++
    String.mk [backquoteChar]

/-- SQL statement and cache key of `list_schemas` (`server.py` lines
266-275); Python truthiness makes `None` and `""` both take the default
branch. -/
def list_schemas_sql_key (catalog : Option String) : String × String :=
  if catalog.getD "" = "" then ("SHOW SCHEMAS", "schemas:default")
  else ("SHOW SCHEMAS IN " ++ _quote_ident (catalog.getD ""),
    "schemas:" ++ catalog.getD "")

/-- SQL statement and cache key of `list_tables` (`server.py` lines
284-296). -/
def list_tables_sql_key (catalog schema : Option String) : String × String :=
  if catalog.getD "" ≠ "" ∧ schema.getD "" ≠ "" then
    ("SHOW TABLES IN " ++ _quote_ident (catalog.getD "") ++ "." ++
        _quote_ident (schema.getD ""),
      "tables:" ++ catalog.getD "" ++ "." ++ schema.getD "")
  else if schema.getD "" ≠ "" then
    ("SHOW TABLES IN " ++ _quote_ident (schema.getD ""),
      "tables:schema:" ++ schema.getD "")
  else ("SHOW TABLES", "tables:default")

/-- SQL statement and cache key of `describe_table` (`server.py` lines
299-307). -/
def describe_table_sql_key (catalog schema table : String) : String × String :=
  ("DESCRIBE TABLE " ++ _quote_ident catalog ++ "." ++ _quote_ident schema ++
      "." ++ _quote_ident table,
    "describe:" ++ catalog ++ "." ++ schema ++ "." ++ table)

/-- `list_catalogs` (`server.py` lines 260-263). -/
def list_catalogs_tool {α : Type} (client : String → Nat → Except DbExc (ExecResult α))
    (refresh : Bool) (ttl getNow setNow : Nat) (cache : CacheState α) :
    Except DbExc (MetaOut α × CacheState α) :=
  _run_metadata_query client "SHOW CATALOGS" "catalogs" refresh ttl getNow setNow cache

/-- `list_schemas` (`server.py` lines 266-275). -/
def list_schemas_tool {α : Type} (client : String → Nat → Except DbExc (ExecResult α))
    (catalog : Option String) (refresh : Bool) (ttl getNow setNow : Nat)
    (cache : CacheState α) : Except DbExc (MetaOut α × CacheState α) :=
  _run_metadata_query client (list_schemas_sql_key catalog).1
    (list_schemas_sql_key catalog).2 refresh ttl getNow setNow cache

/-- `list_databases` (`server.py` lines 278-281): alias for
`list_schemas`. -/
def list_databases_tool {α : Type} (client : String → Nat → Except DbExc (ExecResult α))
    (catalog : Option String) (refresh : Bool) (ttl getNow setNow : Nat)
    (cache : CacheState α) : Except DbExc (MetaOut α × CacheState α) :=
  list_schemas_tool client catalog refresh ttl getNow setNow cache

/-- `list_tables` (`server.py` lines 284-296). -/
def list_tables_tool {α : Type} (client : String → Nat → Except DbExc (ExecResult α))
    (catalog schema : Option String) (refresh : Bool) (ttl getNow setNow : Nat)
    (cache : CacheState α) : Except DbExc (MetaOut α × CacheState α) :=
  _run_metadata_query client (list_tables_sql_key catalog schema).1
    (list_tables_sql_key catalog schema).2 refresh ttl getNow setNow cache

/-- `describe_table` (`server.py` lines 299-307). -/
def describe_table_tool {α : Type} (client : String → Nat → Except DbExc (ExecResult α))
    (catalog schema table : String) (refresh : Bool) (ttl getNow setNow : Nat)
    (cache : CacheState α) : Except DbExc (MetaOut α × CacheState α) :=
  _run_metadata_query client (describe_table_sql_key catalog schema table).1
    (describe_table_sql_key catalog schema table).2 refresh ttl getNow setNow cache

/-! ## C3: error envelopes at the tool boundary -/

/-- A client whose every call raises a transport exception. -/
def errClientEx : String → Nat → Except DbExc (ExecResult Nat) :=
  fun _ _ => .error (.request "connection refused")

/-! ## C7: cache round trip -/

/-- A client whose every call succeeds with a fixed one-row result. -/
def okClientEx : String → Nat → Except DbExc (ExecResult Nat) :=
  fun _ _ => .ok
    { ok := true
      statement_id := "s"
      row_count := 1
      columns := ["a"]
      rows := [[("a", 1)]]
      truncated := false }

/-- C9 amended, as a reusable statement: every identifier fragment is
defensively quoted (wrapped in backticks with embedded backticks
doubled) where it is interpolated into the generated SQL, while the
cache keys embed the raw, unquoted fragments. -/
def QuotingSpec (c s t : String) : Prop :=
  (describe_table_sql_key c s t).1 =
    "DESCRIBE TABLE " ++ _quote_ident c ++ "." ++ _quote_ident s ++ "." ++
      _quote_ident t ∧
  (describe_table_sql_key c s t).2 = "describe:" ++ c ++ "." ++ s ++ "." ++ t ∧
  (list_schemas_sql_key (some c)).1 = "SHOW SCHEMAS IN " ++ _quote_ident c ∧
  (list_schemas_sql_key (some c)).2 = "schemas:" ++ c ∧
  (list_tables_sql_key (some c) (some s)).1 =
    "SHOW TABLES IN " ++ _quote_ident c ++ "." ++ _quote_ident s ∧
  (list_tables_sql_key (some c) (some s)).2 = "tables:" ++ c ++ "." ++ s ∧
  (_quote_ident c).data =
    backquoteChar :: ((c.data.map (fun ch =>
      if ch = backquoteChar then [backquoteChar, backquoteChar] else [ch])).flatten ++
      [backquoteChar])

/-! ## Closed witnesses for the comment-prefix and row-cap theorems -/

def execSubmitEx : SqlResponse Nat :=
  { statementId := some "stmt-2"
    state := some "SUCCEEDED"
    errMessage := none
    manifestCols := [some "a", none]
    dataRows := [[1, 2], [3, 4], [5, 6]]
    chunkTail := [[[7, 8], [9, 10]]] }

theorem scanF_fuel_eq {step : Char → List Char → Option (List Char × List Char)}
    (hstep : StepBound step) :
    ∀ (f1 f2 : Nat) (l : List Char), l.length ≤ f1 → l.length ≤ f2 →
      scanF step f1 l = scanF step f2 l := by
  intro f1
  induction f1 with
  | zero =>
    intro f2 l h1 h2
    have hl : l = [] := List.length_eq_zero.mp (Nat.le_zero.mp h1)
    subst hl
    cases f2 <;> rfl
  | succ f ih =>
    intro f2 l h1 h2
    cases l with
    | nil => cases f2 <;> rfl
    | cons c rest =>
      cases f2 with
      | zero => simp at h2
      | succ g =>
        simp only [List.length_cons, Nat.succ_le_succ_iff] at h1 h2
        simp only [scanF]
        cases hs : step c rest with
        | none =>
          simp only []
          rw [ih g rest h1 h2]
        | some p =>
          obtain ⟨out, rem⟩ := p
          have hrem : rem.length ≤ rest.length := hstep c rest out rem hs
          simp only []
          rw [ih g rem (le_trans hrem h1) (le_trans hrem h2)]

theorem scan_nil (step : Char → List Char → Option (List Char × List Char)) :
    scan step [] = [] := rfl

theorem scan_cons {step : Char → List Char → Option (List Char × List Char)}
    (hstep : StepBound step) (c : Char) (rest : List Char) :
    scan step (c :: rest) =
      match step c rest with
      | some (out, rem) => out ++ scan step rem
      | none => c :: scan step rest := by
  show scanF step (rest.length + 1) (c :: rest) = _
  simp only [scanF]
  cases hs : step c rest with
  | none =>
    simp only []
    rw [scanF_fuel_eq hstep rest.length rest.length rest (le_refl _) (le_refl _)]
    rfl
  | some p =>
    obtain ⟨out, rem⟩ := p
    have hrem : rem.length ≤ rest.length := hstep c rest out rem hs
    simp only []
    rw [scanF_fuel_eq hstep rest.length rem.length rem hrem (le_refl _)]
    rfl

/-- If no position of `a` triggers the step (even looking into `q`), a
pass over `a ++ q` copies `a` and continues over `q`. -/
theorem scan_append {step : Char → List Char → Option (List Char × List Char)}
    (hstep : StepBound step) (a q : List Char)
    (hnone : ∀ (x y : List Char) (c : Char), a = x ++ c :: y → step c (y ++ q) = none) :
    scan step (a ++ q) = a ++ scan step q := by
  induction a with
  | nil => rfl
  | cons d a' ih =>
    have hd : step d (a' ++ q) = none := hnone [] a' d rfl
    rw [List.cons_append, scan_cons hstep, hd]
    simp only []
    rw [ih (fun x y c hxy => hnone (d :: x) y c (by rw [hxy]; rfl))]
    rfl

theorem findClose_length :
    ∀ (l r : List Char), findClose l = some r → r.length < l.length := by
  intro l
  induction l with
  | nil => intro r h; simp [findClose] at h
  | cons c rest ih =>
    intro r h
    rw [findClose] at h
    split at h
    · cases h
      cases rest with
      | nil => simp [List.head?] at *
      | cons b t => simp [List.tail]; omega
    · have := ih r h
      simp only [List.length_cons]
      omega

theorem blockStep_bound : StepBound blockStep := by
  intro c rest out rem h
  rw [blockStep] at h
  split at h
  · cases hfc : findClose rest.tail with
    | none => rw [hfc] at h; cases h
    | some r =>
      rw [hfc] at h
      cases h
      have h1 := findClose_length _ _ hfc
      have h2 : rest.tail.length ≤ rest.length := by cases rest <;> simp [List.tail]
      omega
  · cases h

theorem lineStep_bound : StepBound lineStep := by
  intro c rest out rem h
  rw [lineStep] at h
  split at h
  · cases h
    have h1 := (List.dropWhile_sublist (l := rest.tail) (fun x => x ≠ '\n')).length_le
    have h2 : rest.tail.length ≤ rest.length := by cases rest <;> simp [List.tail]
    omega
  · cases h

theorem qScanF_length (qc : Char) :
    ∀ (fuel : Nat) (l r : List Char), qScanF qc fuel l = some r → r.length < l.length := by
  intro fuel
  induction fuel with
  | zero => intro l r h; simp [qScanF] at h
  | succ f ih =>
    intro l r h
    cases l with
    | nil => simp [qScanF] at h
    | cons c rest =>
      rw [qScanF] at h
      split at h
      · split at h
        · cases hq : qScanF qc f rest.tail with
          | some r' =>
            rw [hq] at h
            cases h
            have h1 := ih _ _ hq
            have h2 : rest.tail.length ≤ rest.length := by cases rest <;> simp [List.tail]
            simp only [List.length_cons]
            omega
          | none =>
            rw [hq] at h
            cases h
            simp
        · cases h
          simp
      · have := ih _ _ h
        simp only [List.length_cons]
        omega

theorem qScan_length (qc : Char) (l r : List Char) (h : qScan qc l = some r) :
    r.length < l.length :=
  qScanF_length qc l.length l r h

theorem quoteStep_bound (qc : Char) : StepBound (quoteStep qc) := by
  intro c rest out rem h
  rw [quoteStep] at h
  split at h
  · cases hq : qScan qc rest with
    | none => rw [hq] at h; cases h
    | some r =>
      rw [hq] at h
      cases h
      exact le_of_lt (qScan_length qc rest rem hq)
  · cases h

theorem dqScanF_length :
    ∀ (fuel : Nat) (l r : List Char), dqScanF fuel l = some r → r.length < l.length := by
  intro fuel
  induction fuel with
  | zero => intro l r h; simp [dqScanF] at h
  | succ f ih =>
    intro l r h
    cases l with
    | nil => simp [dqScanF] at h
    | cons c rest =>
      rw [dqScanF] at h
      split at h
      · cases hq : dqScanF f rest.tail with
        | some r' =>
          rw [hq] at h
          cases h
          have h1 := ih _ _ hq
          have h2 : rest.tail.length ≤ rest.length := by cases rest <;> simp [List.tail]
          simp only [List.length_cons]
          omega
        | none =>
          rw [hq] at h
          cases h
          have h2 : rest.tail.length ≤ rest.length := by cases rest <;> simp [List.tail]
          simp only [List.length_cons]
          omega
      · split at h
        · cases h
          simp
        · have := ih _ _ h
          simp only [List.length_cons]
          omega

theorem dqScan_length (l r : List Char) (h : dqScan l = some r) : r.length < l.length :=
  dqScanF_length l.length l r h

theorem dqStep_bound : StepBound dqStep := by
  intro c rest out rem h
  rw [dqStep] at h
  split at h
  · cases hq : dqScan rest with
    | none => rw [hq] at h; cases h
    | some r =>
      rw [hq] at h
      cases h
      exact le_of_lt (dqScan_length rest rem hq)
  · cases h

theorem wsStep_bound : StepBound wsStep := by
  intro c rest out rem h
  rw [wsStep] at h
  split at h
  · cases h
    exact (List.dropWhile_sublist (l := rest) isPySpace).length_le
  · cases h

/-- C1: for every SQL string, `is_read_only_query` returns allowed iff,
after normalization (comments stripped, quoted literal contents emptied,
whitespace collapsed, text upper-cased), the text is non-empty, its
leading contiguous alphabetic token is a read-only start keyword, and no
disallowed operation keyword occurs as a whole word; in particular a
disallowed keyword only inside a quoted literal is allowed and a live
one is blocked. -/
theorem classifier_read_only_iff :
    (∀ q : String, is_read_only_query q = true ↔ readOnlyPerSpec q) ∧
    is_read_only_query "SELECT * FROM t WHERE note = 'please INSERT this'" = true ∧
    is_read_only_query "SELECT * FROM t; DROP TABLE t" = false := by
  refine ⟨fun q => ?_, by decide, by decide⟩
  rw [is_read_only_query, readOnlyPerSpec, classifyNormalized]
  generalize (_strip_sql_comments_and_literals q.data).map Char.toUpper = n
  by_cases h1 : n.isEmpty
  · rw [List.isEmpty_iff] at h1
    subst h1
    simp
  · rw [if_neg h1]
    rw [List.isEmpty_iff] at h1
    by_cases h2 : (n.takeWhile (fun c => 'A' ≤ c && c ≤ 'Z')).isEmpty
    · rw [if_pos h2]
      rw [List.isEmpty_iff] at h2
      rw [h2]
      have hnot : String.mk [] ∉ READ_ONLY_START_KEYWORDS := by decide
      simp [h1, hnot]
    · rw [if_neg h2]
      by_cases h3 : String.mk (n.takeWhile (fun c => 'A' ≤ c && c ≤ 'Z')) ∈
          READ_ONLY_START_KEYWORDS
      · rw [if_pos h3]
        simp only [List.all_eq_true, Bool.not_eq_true', h1, h3, true_and,
          ne_eq, not_false_iff]
      · rw [if_neg h3]
        simp [h1, h3]

theorem hasSub2_of_suffix (a b : Char) (x t : List Char) (h : hasSub2 a b t = true) :
    hasSub2 a b (x ++ t) = true := by
  induction x with
  | nil => exact h
  | cons d x' ih =>
    rw [List.cons_append, hasSub2]
    split
    · rfl
    · exact ih

theorem hasSub2_adjacent (a b : Char) (x y : List Char) :
    hasSub2 a b (x ++ a :: b :: y) = true := by
  apply hasSub2_of_suffix
  rw [hasSub2]
  simp

theorem not_adjacent_of_hasSub2_eq_false {a b : Char} {l : List Char}
    (h : hasSub2 a b l = false) (x y : List Char) (c d : Char)
    (hl : l = x ++ c :: d :: y) : ¬(c = a ∧ d = b) := by
  rintro ⟨rfl, rfl⟩
  rw [hl, hasSub2_adjacent] at h
  cases h

theorem hasSub2_append_last {a b x : Char} {l : List Char}
    (h : hasSub2 a b l = false) (hx : x ≠ b) : hasSub2 a b (l ++ [x]) = false := by
  induction l with
  | nil =>
    rw [List.nil_append, hasSub2]
    rw [if_neg ?_]
    · rfl
    · rintro ⟨_, hh⟩
      simp at hh
  | cons c rest ih =>
    rw [hasSub2] at h
    split at h
    · cases h
    · rename_i hneg
      rw [List.cons_append, hasSub2]
      rw [if_neg ?_]
      · exact ih h
      · rintro ⟨rfl, hh⟩
        cases rest with
        | nil =>
          simp only [List.nil_append, List.head?_cons, Option.some.injEq] at hh
          exact hx hh
        | cons r rest' =>
          simp only [List.cons_append, List.head?_cons, Option.some.injEq] at hh
          exact hneg ⟨rfl, by rw [List.head?_cons, hh]⟩

theorem findClose_append {c : List Char} (q : List Char)
    (h : hasSub2 '*' '/' c = false) :
    findClose (c ++ '*' :: '/' :: q) = some q := by
  induction c with
  | nil =>
    rw [List.nil_append, findClose]
    simp
  | cons d c' ih =>
    rw [hasSub2] at h
    split at h
    · cases h
    · rename_i hneg
      rw [List.cons_append, findClose]
      rw [if_neg ?_]
      · exact ih h
      · rintro ⟨rfl, hh⟩
        cases c' with
        | nil =>
          simp only [List.nil_append, List.head?_cons, Option.some.injEq] at hh
          exact absurd hh (by decide)
        | cons e c'' =>
          simp only [List.cons_append, List.head?_cons, Option.some.injEq] at hh
          exact hneg ⟨rfl, by rw [List.head?_cons, hh]⟩

/-- A block comment `/* c */` at the head of the input is replaced by a
single space, and the pass continues on the rest. -/
theorem stripBlock_comment_head (c q : List Char) (h : hasSub2 '*' '/' c = false) :
    stripBlock ('/' :: '*' :: (c ++ '*' :: '/' :: q)) = ' ' :: stripBlock q := by
  rw [stripBlock, scan_cons blockStep_bound]
  have hstep : blockStep '/' ('*' :: (c ++ '*' :: '/' :: q)) = some ([' '], q) := by
    rw [blockStep, if_pos (by simp)]
    simp only [List.tail_cons]
    rw [findClose_append q h]
  rw [hstep]
  rfl

/-- A pass copies verbatim any prefix none of whose positions trigger
it; specialised to `blockStep` with a no-`/*` prefix that does not end
in `/`. -/
theorem stripBlock_append (a q : List Char) (h : hasSub2 '/' '*' a = false)
    (hlast : a.getLast? ≠ some '/') :
    stripBlock (a ++ q) = a ++ stripBlock q := by
  rw [stripBlock, scan_append blockStep_bound a q, stripBlock]
  intro x y c hxy
  rw [blockStep, if_neg ?_]
  rintro ⟨rfl, hh⟩
  cases y with
  | nil =>
    cases q with
    | nil => simp at hh
    | cons e q' =>
      simp only [List.nil_append, List.head?_cons, Option.some.injEq] at hh
      apply hlast
      rw [hxy, List.getLast?_concat]
  | cons d y' =>
    simp only [List.cons_append, List.head?_cons, Option.some.injEq] at hh
    exact not_adjacent_of_hasSub2_eq_false h x y' '/' d hxy ⟨rfl, hh⟩

theorem stripLine_comment_head (c q : List Char) (h : '\n' ∉ c) :
    stripLine ('-' :: '-' :: (c ++ '\n' :: q)) = ' ' :: '\n' :: stripLine q := by
  rw [stripLine, scan_cons lineStep_bound]
  have hstep : lineStep '-' ('-' :: (c ++ '\n' :: q)) =
      some ([' '], '\n' :: q) := by
    rw [lineStep, if_pos (by simp)]
    simp only [List.tail_cons]
    rw [List.dropWhile_append_of_pos (by intro a ha; simp; rintro rfl; exact h ha)]
    rw [List.dropWhile_cons_of_neg (by simp)]
  rw [hstep]
  show ' ' :: scan lineStep ('\n' :: q) = ' ' :: '\n' :: stripLine q
  rw [scan_cons lineStep_bound]
  have hstep2 : lineStep '\n' q = none := by
    rw [lineStep, if_neg (by simp)]
  rw [hstep2]
  rfl

theorem stripLine_cons_ne (c : Char) (rest : List Char) (h : c ≠ '-') :
    stripLine (c :: rest) = c :: stripLine rest := by
  rw [stripLine, scan_cons lineStep_bound]
  have : lineStep c rest = none := by
    rw [lineStep, if_neg (by rintro ⟨rfl, _⟩; exact h rfl)]
  rw [this]
  rfl

theorem stripQuote_cons_ne (qc c : Char) (rest : List Char) (h : c ≠ qc) :
    stripQuote qc (c :: rest) = c :: stripQuote qc rest := by
  rw [stripQuote, scan_cons (quoteStep_bound qc)]
  have : quoteStep qc c rest = none := by
    rw [quoteStep, if_neg h]
  rw [this]
  rfl

theorem stripDQuote_cons_ne (c : Char) (rest : List Char) (h2 : c ≠ '"') :
    stripDQuote (c :: rest) = c :: stripDQuote rest := by
  rw [stripDQuote, scan_cons dqStep_bound]
  have : dqStep c rest = none := by
    rw [dqStep, if_neg h2]
  rw [this]
  rfl

theorem collapseWS_cons_space (c : Char) (rest : List Char) (h : isPySpace c = true) :
    collapseWS (c :: rest) = ' ' :: collapseWS (rest.dropWhile isPySpace) := by
  rw [collapseWS, scan_cons wsStep_bound]
  have : wsStep c rest = some ([' '], rest.dropWhile isPySpace) := by
    rw [wsStep, if_pos h]
  rw [this]
  rfl

theorem pyStrip_cons_space (c : Char) (w : List Char) (h : isPySpace c = true) :
    pyStrip (c :: w) = pyStrip w := by
  rw [pyStrip, pyStrip, List.dropWhile_cons_of_pos h]

theorem normWS_dropWhile (l : List Char) :
    pyStrip (collapseWS (l.dropWhile isPySpace)) = pyStrip (collapseWS l) := by
  cases l with
  | nil => rfl
  | cons c rest =>
    by_cases h : isPySpace c
    · rw [List.dropWhile_cons_of_pos h, collapseWS_cons_space c rest h,
        pyStrip_cons_space ' ' _ (by decide)]
    · rw [List.dropWhile_cons_of_neg h]

theorem normWS_cons_space (c : Char) (z : List Char) (h : isPySpace c = true) :
    pyStrip (collapseWS (c :: z)) = pyStrip (collapseWS z) := by
  rw [collapseWS_cons_space c z h, pyStrip_cons_space ' ' _ (by decide)]
  exact normWS_dropWhile z

/-- Stripping a whole-input block-comment prefix: the comment becomes a
leading space, which normalization then discards. -/
theorem strip_block_comment_prefix (c q : List Char) (h : hasSub2 '*' '/' c = false) :
    _strip_sql_comments_and_literals ('/' :: '*' :: (c ++ '*' :: '/' :: q)) =
      _strip_sql_comments_and_literals q := by
  rw [_strip_sql_comments_and_literals, _strip_sql_comments_and_literals]
  rw [stripBlock_comment_head c q h]
  rw [stripLine_cons_ne ' ' _ (by decide)]
  rw [stripQuote_cons_ne squoteChar ' ' _ (by decide)]
  rw [stripDQuote_cons_ne ' ' _ (by decide)]
  rw [stripQuote_cons_ne backquoteChar ' ' _ (by decide)]
  rw [normWS_cons_space ' ' _ (by decide)]

/-- Stripping a whole-line line-comment prefix. -/
theorem strip_line_comment_prefix (c q : List Char)
    (h1 : hasSub2 '/' '*' c = false) (h2 : '\n' ∉ c) :
    _strip_sql_comments_and_literals ('-' :: '-' :: (c ++ '\n' :: q)) =
      _strip_sql_comments_and_literals q := by
  have hopen : hasSub2 '/' '*' ('-' :: '-' :: c ++ ['\n']) = false := by
    show hasSub2 '/' '*' ('-' :: ('-' :: c ++ ['\n'])) = false
    rw [hasSub2]
    rw [if_neg (by rintro ⟨hc, _⟩; exact absurd hc (by decide))]
    show hasSub2 '/' '*' ('-' :: (c ++ ['\n'])) = false
    rw [hasSub2]
    rw [if_neg (by rintro ⟨hc, _⟩; exact absurd hc (by decide))]
    exact hasSub2_append_last h1 (by decide)
  have hlast : ('-' :: '-' :: c ++ ['\n']).getLast? ≠ some '/' := by
    have he : ('-' :: '-' :: c ++ ['\n']) = ('-' :: '-' :: c) ++ ['\n'] := rfl
    rw [he, List.getLast?_concat]
    simp
  rw [_strip_sql_comments_and_literals, _strip_sql_comments_and_literals]
  have ha : ('-' :: '-' :: (c ++ '\n' :: q)) = ('-' :: '-' :: c ++ ['\n']) ++ q := by
    simp
  rw [ha]
  rw [stripBlock_append ('-' :: '-' :: c ++ ['\n']) q hopen hlast]
  have hb : ('-' :: '-' :: c ++ ['\n']) ++ stripBlock q =
      '-' :: '-' :: (c ++ '\n' :: stripBlock q) := by
    simp
  rw [hb]
  rw [stripLine_comment_head c (stripBlock q) h2]
  rw [stripQuote_cons_ne squoteChar ' ' _ (by decide)]
  rw [stripQuote_cons_ne squoteChar '\n' _ (by decide)]
  rw [stripDQuote_cons_ne ' ' _ (by decide)]
  rw [stripDQuote_cons_ne '\n' _ (by decide)]
  rw [stripQuote_cons_ne backquoteChar ' ' _ (by decide)]
  rw [stripQuote_cons_ne backquoteChar '\n' _ (by decide)]
  rw [normWS_cons_space ' ' _ (by decide)]
  rw [normWS_cons_space '\n' _ (by decide)]

/-- C2: classification is decided after comment stripping.  Wrapping
arbitrary text (containing no comment terminator) in a leading block
comment, or an arbitrary newline-free text (containing no comment
opener) in a leading line comment, never changes the verdict: a
disallowed keyword that lives only inside the comment cannot block, and
a comment prefix in front of a non-read-only statement cannot cause a
false allow.  The concrete conjuncts witness the same facts for
mid-query comments. -/
theorem comment_stripping_decides_classification (c q c2 q2 : String)
    (h1 : hasSub2 '*' '/' c.data = false)
    (h2 : hasSub2 '/' '*' c2.data = false)
    (h3 : '\n' ∉ c2.data) :
    is_read_only_query ("/*" ++ c ++ "*/" ++ q) = is_read_only_query q ∧
    is_read_only_query ("--" ++ c2 ++ "\n" ++ q2) = is_read_only_query q2 ∧
    is_read_only_query "SELECT /* DROP TABLE t */ 1" = true ∧
    is_read_only_query "SELECT 1 -- DROP TABLE t" = true ∧
    is_read_only_query "SELECT /* x */ 1; DROP TABLE t" = false ∧
    is_read_only_query "/* comment */ DELETE FROM t" = false := by
  refine ⟨?_, ?_, by decide, by decide, by decide, by decide⟩
  · rw [is_read_only_query, is_read_only_query]
    have hd : ("/*" ++ c ++ "*/" ++ q).data =
        '/' :: '*' :: (c.data ++ '*' :: '/' :: q.data) := by
      simp [String.data_append]
    rw [hd, strip_block_comment_prefix c.data q.data h1]
  · rw [is_read_only_query, is_read_only_query]
    have hd : ("--" ++ c2 ++ "\n" ++ q2).data =
        '-' :: '-' :: (c2.data ++ '\n' :: q2.data) := by
      simp [String.data_append]
    rw [hd, strip_line_comment_prefix c2.data q2.data h2 h3]

/-! ## C4: the row cap and the truncated flag -/

/-- C4: a successful `execute_read_query` returns at most `max_rows`
rows, `row_count` is the length of the returned row list, and
`truncated` is true iff an unfollowed next-chunk link remained or more
rows were accumulated than `max_rows`. -/
theorem execute_row_cap {α : Type} (interval deadline maxRows : Nat)
    (submit : SqlResponse α) (fetch : Nat → SqlResponse α) (r : ExecResult α)
    (_hpos : 0 < maxRows)
    (h : clientExecute interval deadline maxRows submit fetch = .ok r) :
    r.rows.length ≤ maxRows ∧
    r.row_count = r.rows.length ∧
    (r.truncated = true ↔
      (followChunks maxRows (pollFinal fetch interval deadline submit).dataRows
          (pollFinal fetch interval deadline submit).chunkTail).2 = true ∨
        maxRows < (followChunks maxRows (pollFinal fetch interval deadline submit).dataRows
          (pollFinal fetch interval deadline submit).chunkTail).1.length) := by
  rw [clientExecute] at h
  simp only [] at h
  split at h
  · cases h
  · split at h
    · cases h
    · rw [Except.ok.injEq] at h
      subst h
      rw [successResult]
      refine ⟨?_, rfl, ?_⟩
      · simp [List.length_take]
      · simp

/-! ## C5: chunk following is sequential, order-preserving, and stops
at the cap -/

/-- C5: the accumulated rows are the first page followed by the chunks
in link order up to a stopping index `k`; every chunk that was fetched
was fetched while the accumulated count was still below `max_rows`; the
loop stops exactly at link exhaustion or at the cap; and the
unfollowed-link flag records whether chunks remained. -/
theorem followChunks_concat_spec {α : Type} (maxRows : Nat)
    (firstRows : List (List α)) (chunks : List (List (List α))) :
    ∃ k ≤ chunks.length,
      (followChunks maxRows firstRows chunks).1 = firstRows ++ (chunks.take k).flatten ∧
      (∀ j < k, (firstRows ++ (chunks.take j).flatten).length < maxRows) ∧
      (k = chunks.length ∨ maxRows ≤ (firstRows ++ (chunks.take k).flatten).length) ∧
      (followChunks maxRows firstRows chunks).2 = decide (k < chunks.length) := by
  induction chunks generalizing firstRows with
  | nil =>
    refine ⟨0, Nat.le_refl 0, ?_, ?_, Or.inl rfl, ?_⟩
    · simp [followChunks]
    · intro j hj; omega
    · simp [followChunks]
  | cons chunk rest ih =>
    by_cases hlt : firstRows.length < maxRows
    · obtain ⟨k', hk'le, hacc, hbelow, hstop, hflag⟩ := ih (firstRows ++ chunk)
      refine ⟨k' + 1, by simpa using Nat.succ_le_succ hk'le, ?_, ?_, ?_, ?_⟩
      · rw [followChunks, if_pos hlt, hacc]
        simp [List.take_succ_cons]
      · intro j hj
        cases j with
        | zero => simpa using hlt
        | succ j' =>
          have := hbelow j' (by omega)
          simpa [List.take_succ_cons, List.append_assoc] using this
      · rcases hstop with h | h
        · exact Or.inl (by simp [h])
        · refine Or.inr ?_
          simpa [List.take_succ_cons, List.append_assoc] using h
      · rw [followChunks, if_pos hlt, hflag]
        simp only [List.length_cons]
        congr 1
        simp [Nat.succ_lt_succ_iff]
    · refine ⟨0, Nat.zero_le _, ?_, ?_, Or.inr ?_, ?_⟩
      · rw [followChunks, if_neg hlt]
        simp
      · intro j hj; omega
      · simpa using Nat.le_of_not_lt hlt
      · rw [followChunks, if_neg hlt]
        simp

/-! ## C6: the poll loop -/

theorem pollAux_spec {α : Type} (fetch : Nat → SqlResponse α) (interval deadline : Nat)
    (hint : 1 ≤ interval) (submit : SqlResponse α) :
    ∀ (fuel n : Nat), deadline + 1 ≤ n + fuel →
      ∃ N, n ≤ N ∧
        pollAux fetch interval deadline fuel n (respAt submit fetch n) = respAt submit fetch N ∧
        (∀ m, n ≤ m → m < N →
          (stateD (respAt submit fetch m) = "PENDING" ∨
              stateD (respAt submit fetch m) = "RUNNING") ∧
            m * interval < deadline) ∧
        ¬((stateD (respAt submit fetch N) = "PENDING" ∨
              stateD (respAt submit fetch N) = "RUNNING") ∧
            N * interval < deadline) := by
  intro fuel
  induction fuel with
  | zero =>
    intro n hle
    refine ⟨n, Nat.le_refl n, rfl, by intro m h1 h2; omega, ?_⟩
    rintro ⟨_, hlt⟩
    have h5 : n * 1 ≤ n * interval := Nat.mul_le_mul_left n hint
    rw [Nat.mul_one] at h5
    omega
  | succ fuel ih =>
    intro n hle
    by_cases hc : (stateD (respAt submit fetch n) = "PENDING" ∨
        stateD (respAt submit fetch n) = "RUNNING") ∧ n * interval < deadline
    · rw [pollAux, if_pos hc]
      have hfetch : fetch n = respAt submit fetch (n + 1) := rfl
      rw [hfetch]
      obtain ⟨N, hN1, hN2, hN3, hN4⟩ := ih (n + 1) (by omega)
      refine ⟨N, by omega, hN2, ?_, hN4⟩
      intro m hm1 hm2
      rcases Nat.eq_or_lt_of_le hm1 with heq | hlt
      · rw [← heq]
        exact hc
      · exact hN3 m (by omega) hm2
    · rw [pollAux, if_neg hc]
      exact ⟨n, Nat.le_refl n, rfl, by intro m h1 h2; omega, hc⟩

/-- C6: the poll loop re-fetches only while the state is PENDING or
RUNNING and the deadline has not elapsed; the exit state determines
success or failure; failures carry the server message with the
state/generic fallback. -/
theorem poll_loop_spec {α : Type} (interval deadline : Nat) (submit : SqlResponse α)
    (fetch : Nat → SqlResponse α) (hint : 1 ≤ interval) :
    PollLoopSpec interval deadline submit fetch := by
  refine ⟨?_, ?_, ?_⟩
  · obtain ⟨N, _, h2, h3, h4⟩ :=
      pollAux_spec fetch interval deadline hint submit (deadline + 1) 0 (by omega)
    exact ⟨N, h2, fun m hm => h3 m (Nat.zero_le m) hm, h4⟩
  · intro maxRows hsid
    constructor
    · intro hst
      rw [clientExecute, if_neg hsid]
      simp only []
      rw [if_neg (fun hne => hne hst)]
    · intro hst
      rw [clientExecute, if_neg hsid]
      simp only []
      rw [if_pos hst]
  · intro r
    refine ⟨?_, ?_, ?_⟩
    · intro m hm hne
      rw [_error_message, hm, orFalsy, if_neg hne]
    · intro s hmsg hs hne
      rw [_error_message]
      rcases hmsg with h | h
      · rw [h, hs]
        show orFalsy (some s) _ = s
        rw [orFalsy, if_neg hne]
      · rw [h, hs]
        show orFalsy (some "") (orFalsy (some s) _) = s
        rw [orFalsy, if_pos rfl, orFalsy, if_neg hne]
    · intro hmsg hst
      rw [_error_message]
      rcases hmsg with h | h <;> rcases hst with h2 | h2 <;> rw [h, h2] <;> rfl

theorem poll_loop_spec_witness :
    (1 : Nat) ≤ 1 ∧ PollLoopSpec 1 10 pollSubmitEx pollFetchEx :=
  ⟨Nat.le_refl 1, poll_loop_spec 1 10 pollSubmitEx pollFetchEx (Nat.le_refl 1)⟩

/-! ### Cache lookup helpers -/

theorem lookup_eraseKey_self {α : Type} (key : String) (cache : CacheState α) :
    (eraseKey key cache).lookup key = none := by
  induction cache with
  | nil => rfl
  | cons e rest ih =>
    obtain ⟨k, v⟩ := e
    rw [eraseKey, List.filter_cons]
    by_cases h : k = key
    · simp only [h, bne_self_eq_false, if_neg]
      exact ih
    · have hb : (k != key) = true := by simp [bne, h]
      rw [if_pos hb, List.lookup]
      have : (key == k) = false := by simp [Ne.symm h]
      rw [this]
      exact ih

theorem lookup_eraseKey_other {α : Type} (key k2 : String) (h : k2 ≠ key)
    (cache : CacheState α) : (eraseKey key cache).lookup k2 = cache.lookup k2 := by
  induction cache with
  | nil => rfl
  | cons e rest ih =>
    obtain ⟨k, v⟩ := e
    rw [eraseKey, List.filter_cons]
    by_cases hk : k = key
    · have hb : (k != key) = false := by simp [bne, hk]
      rw [hb, if_neg (by simp)]
      rw [List.lookup]
      have : (k2 == k) = false := by simp [hk ▸ h]
      rw [this]
      exact ih
    · have hb : (k != key) = true := by simp [bne, hk]
      rw [if_pos hb, List.lookup, List.lookup]
      cases hkk : (k2 == k) with
      | true => rfl
      | false => exact ih

theorem lookup_cache_set_self {α : Type} (key : String) (payload : MetaRows α)
    (now ttl : Nat) (cache : CacheState α) :
    (_cache_set key payload now ttl cache).lookup key = some (now + ttl, payload) := by
  rw [_cache_set, List.lookup]
  simp

theorem lookup_cache_set_other {α : Type} (key k2 : String) (h : k2 ≠ key)
    (payload : MetaRows α) (now ttl : Nat) (cache : CacheState α) :
    (_cache_set key payload now ttl cache).lookup k2 = cache.lookup k2 := by
  rw [_cache_set, List.lookup]
  have : (k2 == key) = false := by simp [h]
  rw [this]
  exact lookup_eraseKey_other key k2 h cache

/-- C3 counterexample: a transport exception raised inside the
statement client propagates out of the metadata tool `list_catalogs`
(there is no `try` in `_run_metadata_query` or in the metadata tools),
so not every public operation converts exceptions into an `ok: false`
envelope at its own boundary. -/
theorem metadata_tool_exception_escapes :
    list_catalogs_tool errClientEx false 60 0 0 [] =
      .error (.request "connection refused") := rfl

/-- C3 amended: the `execute_read_query` tool returns a structured
envelope on every path — the fixed message for `max_rows <= 0`, the
fixed message on classifier rejection, and an `ok: false` envelope
carrying the error text for either exception kind — and the metadata
path returns an `ok` envelope whenever the client call itself returns
(the metadata tools propagate client exceptions to the external
dispatch layer instead of converting them). -/
theorem execute_tool_error_envelope {α : Type}
    (client : String → Nat → Except DbExc (ExecResult α)) (q : String) (n : Int) :
    (n ≤ 0 → execute_read_query_tool client q n = .err "max_rows must be greater than 0.") ∧
    (0 < n → is_read_only_query q = false →
      execute_read_query_tool client q n =
        .err "Only read-only SQL is allowed. Use SELECT, WITH, SHOW, DESCRIBE, DESC, or EXPLAIN.") ∧
    (∀ m, 0 < n → is_read_only_query q = true →
      client q (min n MAX_ROWS_HARD_LIMIT).toNat = .error (.request m) →
      execute_read_query_tool client q n = .err ("Databricks request failed: " ++ m)) ∧
    (∀ m, 0 < n → is_read_only_query q = true →
      client q (min n MAX_ROWS_HARD_LIMIT).toNat = .error (.other m) →
      execute_read_query_tool client q n = .err m) ∧
    (∀ r, 0 < n → is_read_only_query q = true →
      client q (min n MAX_ROWS_HARD_LIMIT).toNat = .ok r →
      execute_read_query_tool client q n = .result r) ∧
    (∀ (sql key : String) (refresh : Bool) (ttl getNow setNow : Nat)
        (cache : CacheState α) (r : ExecResult α),
      client sql MAX_ROWS_DEFAULT = .ok r → r.ok = true →
      ∃ out cache2,
        _run_metadata_query client sql key refresh ttl getNow setNow cache =
          .ok (out, cache2)) := by
  refine ⟨?_, ?_, ?_, ?_, ?_, ?_⟩
  · intro h
    rw [execute_read_query_tool, if_pos h]
  · intro h1 h2
    rw [execute_read_query_tool, if_neg (by omega), if_pos h2]
  · intro m h1 h2 h3
    rw [execute_read_query_tool, if_neg (by omega), if_neg (by rw [h2]; simp), h3]
  · intro m h1 h2 h3
    rw [execute_read_query_tool, if_neg (by omega), if_neg (by rw [h2]; simp), h3]
  · intro r h1 h2 h3
    rw [execute_read_query_tool, if_neg (by omega), if_neg (by rw [h2]; simp), h3]
  · intro sql key refresh ttl getNow setNow cache r hc hok
    have hrun : ∀ cc : CacheState α, ∃ out cache2,
        runCompute client sql key ttl setNow cc = .ok (out, cache2) := by
      intro cc
      rw [runCompute, hc]
      refine ⟨.fresh r.rows, _cache_set key r.rows setNow ttl cc, ?_⟩
      simp [hok]
    cases refresh with
    | true =>
      rw [_run_metadata_query, if_pos rfl]
      exact hrun cache
    | false =>
      rw [_run_metadata_query, if_neg (by simp)]
      rcases h2 : _cache_get key getNow cache with ⟨op, c1⟩
      cases op with
      | some payload => exact ⟨.hit payload, c1, rfl⟩
      | none => exact hrun c1

theorem execute_tool_error_envelope_witness :
    ((-1 : Int) ≤ 0 ∧
      execute_read_query_tool (α := Nat) errClientEx "SELECT 1" (-1) =
        .err "max_rows must be greater than 0.") ∧
    ((0 : Int) < 5 ∧ is_read_only_query "DELETE FROM t" = false ∧
      execute_read_query_tool (α := Nat) errClientEx "DELETE FROM t" 5 =
        .err "Only read-only SQL is allowed. Use SELECT, WITH, SHOW, DESCRIBE, DESC, or EXPLAIN.") ∧
    ((0 : Int) < 5 ∧ is_read_only_query "SELECT 1" = true ∧
      execute_read_query_tool (α := Nat) errClientEx "SELECT 1" 5 =
        .err ("Databricks request failed: " ++ "connection refused")) :=
  ⟨⟨by decide, (execute_tool_error_envelope errClientEx "SELECT 1" (-1)).1 (by decide)⟩,
   ⟨by decide, by decide,
    (execute_tool_error_envelope errClientEx "DELETE FROM t" 5).2.1 (by decide) (by decide)⟩,
   ⟨by decide, by decide,
    (execute_tool_error_envelope errClientEx "SELECT 1" 5).2.2.1 "connection refused"
      (by decide) (by decide) rfl⟩⟩

/-- C7: immediately after a successful compute stored a key, a
`refresh = false` call within the TTL window returns `cached: true`
with the stored payload, leaves the cache unchanged, and does not
consult the client (the result is the same for every client); once the
TTL has strictly elapsed, the same call evicts the entry, recomputes
through the client, and returns `cached: false`. -/
theorem cache_round_trip {α : Type} (client : String → Nat → Except DbExc (ExecResult α))
    (sql key : String) (payload : MetaRows α) (cache0 : CacheState α)
    (ttl t0 t1 t2 : Nat) :
    (t1 ≤ t0 + ttl →
      _run_metadata_query client sql key false ttl t1 t2
          (_cache_set key payload t0 ttl cache0) =
        .ok (.hit payload, _cache_set key payload t0 ttl cache0)) ∧
    (t0 + ttl < t1 → ∀ r, client sql MAX_ROWS_DEFAULT = .ok r → r.ok = true →
      _run_metadata_query client sql key false ttl t1 t2
          (_cache_set key payload t0 ttl cache0) =
        .ok (.fresh r.rows,
          _cache_set key r.rows t2 ttl
            (eraseKey key (_cache_set key payload t0 ttl cache0)))) := by
  constructor
  · intro h
    rw [_run_metadata_query, if_neg (by simp)]
    have hget : _cache_get key t1 (_cache_set key payload t0 ttl cache0) =
        (some payload, _cache_set key payload t0 ttl cache0) := by
      rw [_cache_get, lookup_cache_set_self]
      show (if t0 + ttl < t1 then
          (none, eraseKey key (_cache_set key payload t0 ttl cache0))
        else (some payload, _cache_set key payload t0 ttl cache0)) = _
      rw [if_neg (by omega)]
    rw [hget]
  · intro h r hc hok
    rw [_run_metadata_query, if_neg (by simp)]
    have hget : _cache_get key t1 (_cache_set key payload t0 ttl cache0) =
        (none, eraseKey key (_cache_set key payload t0 ttl cache0)) := by
      rw [_cache_get, lookup_cache_set_self]
      show (if t0 + ttl < t1 then
          (none, eraseKey key (_cache_set key payload t0 ttl cache0))
        else (some payload, _cache_set key payload t0 ttl cache0)) = _
      rw [if_pos (by omega)]
    rw [hget]
    show runCompute client sql key ttl t2 _ = _
    rw [runCompute, hc]
    simp [hok]

theorem cache_round_trip_witness :
    ((5 : Nat) ≤ 0 + 60 ∧
      _run_metadata_query okClientEx "SHOW CATALOGS" "catalogs" false 60 5 6
          (_cache_set "catalogs" [[("a", 0)]] 0 60 []) =
        .ok (.hit [[("a", 0)]], _cache_set "catalogs" [[("a", 0)]] 0 60 [])) ∧
    (0 + 60 < (61 : Nat) ∧
      _run_metadata_query okClientEx "SHOW CATALOGS" "catalogs" false 60 61 62
          (_cache_set "catalogs" [[("a", 0)]] 0 60 []) =
        .ok (.fresh [[("a", 1)]],
          _cache_set "catalogs" [[("a", 1)]] 62 60
            (eraseKey "catalogs" (_cache_set "catalogs" [[("a", 0)]] 0 60 [])))) :=
  ⟨⟨by decide,
    (cache_round_trip okClientEx "SHOW CATALOGS" "catalogs" [[("a", 0)]] [] 60 0 5 6).1
      (by decide)⟩,
   ⟨by decide,
    (cache_round_trip okClientEx "SHOW CATALOGS" "catalogs" [[("a", 0)]] [] 60 0 61 62).2
      (by decide) _ rfl rfl⟩⟩

/-! ## C8: cache entry invariant -/

/-- C8: a lookup never returns an entry strictly past its expiry — an
expired entry is lazily evicted and reported as a miss — and a write
replaces the entry for its key wholesale with a single
(expiry, payload) pair, leaving every other key unchanged. -/
theorem cache_entry_invariant {α : Type} (key k2 : String) (now ttl : Nat)
    (cache : CacheState α) (payload p : MetaRows α) :
    (∀ c2, _cache_get key now cache = (some p, c2) →
      ∃ exp, cache.lookup key = some (exp, p) ∧ ¬ exp < now ∧ c2 = cache) ∧
    (∀ exp, cache.lookup key = some (exp, p) → exp < now →
      _cache_get key now cache = (none, eraseKey key cache) ∧
        (eraseKey key cache).lookup key = none) ∧
    (_cache_set key payload now ttl cache).lookup key = some (now + ttl, payload) ∧
    (k2 ≠ key → (_cache_set key payload now ttl cache).lookup k2 = cache.lookup k2) := by
  refine ⟨?_, ?_, lookup_cache_set_self key payload now ttl cache, ?_⟩
  · intro c2 h
    rw [_cache_get] at h
    cases hl : cache.lookup key with
    | none =>
      rw [hl] at h
      have h2 : ((none : Option (MetaRows α)), cache) = (some p, c2) := h
      simp at h2
    | some e =>
      obtain ⟨exp, pay⟩ := e
      rw [hl] at h
      have h2 : (if exp < now then ((none : Option (MetaRows α)), eraseKey key cache)
          else (some pay, cache)) = (some p, c2) := h
      by_cases hexp : exp < now
      · rw [if_pos hexp] at h2
        simp at h2
      · rw [if_neg hexp] at h2
        rw [Prod.mk.injEq, Option.some.injEq] at h2
        exact ⟨exp, by rw [h2.1], hexp, h2.2.symm⟩
  · intro exp hl hexp
    refine ⟨?_, lookup_eraseKey_self key cache⟩
    rw [_cache_get, hl]
    show (if exp < now then ((none : Option (MetaRows α)), eraseKey key cache)
      else (some p, cache)) = _
    rw [if_pos hexp]
  · intro h
    exact lookup_cache_set_other key k2 h payload now ttl cache

theorem cache_entry_invariant_witness :
    ((([("k", 5, [[("a", 1)]])] : CacheState Nat).lookup "k" = some (5, [[("a", 1)]]) ∧
        5 < 9) ∧
      (_cache_get "k" 9 ([("k", 5, [[("a", 1)]])] : CacheState Nat) =
          (none, eraseKey "k" [("k", 5, [[("a", 1)]])]) ∧
        (eraseKey "k" ([("k", 5, [[("a", 1)]])] : CacheState Nat)).lookup "k" = none)) ∧
    ("x" ≠ "k" ∧
      (_cache_set "k" [] 9 60 ([("k", 5, [[("a", 1)]])] : CacheState Nat)).lookup "x" =
        ([("k", 5, [[("a", 1)]])] : CacheState Nat).lookup "x") :=
  ⟨⟨⟨by decide, by decide⟩,
    (cache_entry_invariant "k" "x" 9 60 [("k", 5, [[("a", 1)]])] [] [[("a", 1)]]).2.1 5
      (by decide) (by decide)⟩,
   ⟨by decide,
    (cache_entry_invariant "k" "x" 9 60 [("k", 5, [[("a", 1)]])] [] [[("a", 1)]]).2.2.2
      (by decide)⟩⟩

/-! ## C9: identifier quoting -/

/-- C9 counterexample: identifier fragments are NOT quoted inside cache
keys — two distinct table coordinates produce the same `describe:` cache
key even though their generated SQL differs, and a backtick-bearing
catalog name is embedded raw (unquoted) in the `schemas:` key. -/
theorem cache_key_unquoted :
    (describe_table_sql_key "a.b" "c" "d").2 = (describe_table_sql_key "a" "b.c" "d").2 ∧
    (describe_table_sql_key "a.b" "c" "d").1 ≠ (describe_table_sql_key "a" "b.c" "d").1 ∧
    (list_schemas_sql_key (some "x`y")).2 = "schemas:x`y" ∧
    (list_schemas_sql_key (some "x`y")).2 ≠ "schemas:" ++ _quote_ident "x`y" := by
  refine ⟨by decide, by decide, by decide, by decide⟩

/-- C9 amended: quoting is applied in the generated SQL only; cache
keys embed the raw fragments. -/
theorem identifiers_quoted_in_sql_only (c s t : String) (hc : c ≠ "") (hs : s ≠ "") :
    QuotingSpec c s t := by
  refine ⟨rfl, rfl, ?_, ?_, ?_, ?_, ?_⟩
  · simp only [list_schemas_sql_key, Option.getD_some, if_neg hc]
  · simp only [list_schemas_sql_key, Option.getD_some, if_neg hc]
  · simp only [list_tables_sql_key, Option.getD_some, if_pos (And.intro hc hs)]
  · simp only [list_tables_sql_key, Option.getD_some, if_pos (And.intro hc hs)]
  · simp only [_quote_ident, String.data_append]
    simp

theorem identifiers_quoted_in_sql_only_witness :
    (("cat" : String) ≠ "" ∧ ("sch" : String) ≠ "") ∧ QuotingSpec "cat" "sch" "tbl" :=
  ⟨⟨by decide, by decide⟩,
   identifiers_quoted_in_sql_only "cat" "sch" "tbl" (by decide) (by decide)⟩

/-! ## C10: the alias tools -/

/-- C10: `get_databricks_data` returns exactly what `execute_read_query`
returns on every input, and `list_databases` returns exactly what
`list_schemas` returns on every input. -/
theorem alias_tools_extensionally_equal {α : Type} :
    (∀ (client : String → Nat → Except DbExc (ExecResult α)) (q : String) (n : Int),
      get_databricks_data_tool client q n = execute_read_query_tool client q n) ∧
    (∀ (client : String → Nat → Except DbExc (ExecResult α)) (catalog : Option String)
        (refresh : Bool) (ttl getNow setNow : Nat) (cache : CacheState α),
      list_databases_tool client catalog refresh ttl getNow setNow cache =
        list_schemas_tool client catalog refresh ttl getNow setNow cache) :=
  ⟨fun _ _ _ => rfl, fun _ _ _ _ _ _ _ => rfl⟩

theorem comment_stripping_witness :
    (hasSub2 '*' '/' (" DROP TABLE t " : String).data = false ∧
      hasSub2 '/' '*' (" INSERT x" : String).data = false ∧
      '\n' ∉ (" INSERT x" : String).data) ∧
    (is_read_only_query ("/*" ++ " DROP TABLE t " ++ "*/" ++ "SELECT 1") =
        is_read_only_query "SELECT 1" ∧
      is_read_only_query ("--" ++ " INSERT x" ++ "\n" ++ "DELETE FROM t") =
        is_read_only_query "DELETE FROM t" ∧
      is_read_only_query "SELECT /* DROP TABLE t */ 1" = true ∧
      is_read_only_query "SELECT 1 -- DROP TABLE t" = true ∧
      is_read_only_query "SELECT /* x */ 1; DROP TABLE t" = false ∧
      is_read_only_query "/* comment */ DELETE FROM t" = false) :=
  ⟨⟨by decide, by decide, by decide⟩,
   comment_stripping_decides_classification " DROP TABLE t " "SELECT 1" " INSERT x"
     "DELETE FROM t" (by decide) (by decide) (by decide)⟩

theorem execute_row_cap_witness :
    ((0 : Nat) < 4 ∧
      clientExecute 1 10 4 execSubmitEx (fun _ => execSubmitEx) =
        .ok (successResult "stmt-2" execSubmitEx 4)) ∧
    ((successResult "stmt-2" execSubmitEx 4).rows.length ≤ 4 ∧
      (successResult "stmt-2" execSubmitEx 4).row_count =
        (successResult "stmt-2" execSubmitEx 4).rows.length ∧
      ((successResult "stmt-2" execSubmitEx 4).truncated = true ↔
        (followChunks 4 (pollFinal (fun _ => execSubmitEx) 1 10 execSubmitEx).dataRows
            (pollFinal (fun _ => execSubmitEx) 1 10 execSubmitEx).chunkTail).2 = true ∨
          4 < (followChunks 4 (pollFinal (fun _ => execSubmitEx) 1 10 execSubmitEx).dataRows
            (pollFinal (fun _ => execSubmitEx) 1 10 execSubmitEx).chunkTail).1.length)) :=
  ⟨⟨by decide, by rfl⟩,
   execute_row_cap 1 10 4 execSubmitEx (fun _ => execSubmitEx)
     (successResult "stmt-2" execSubmitEx 4) (by decide) (by rfl)⟩

end DbxMcp
